import Mathlib

/-!
Verification of the `ruka_trends_mvp` weekly-trends pipeline
(`ruka_trends_mvp.py` and `update_sheet.py`).

The pipeline is shallowly embedded over lists of records:

* pandas `DataFrame`s become `List` of structures,
* `datetime` dates become `ℤ` (days since 1970-01-01; that epoch day was a
  Thursday, so pandas' `.dt.weekday`, with Monday = 0, is `(d + 3) % 7`),
* float columns become `ℚ` (the arithmetic in the script — means, a
  subtraction, the fixed 0.7/0.3 weighting — is modelled exactly),
* a nullable column (`NaN`-able) becomes `Option ℚ` / `Option String`,
* the stable multi-column `sort_values` / sorted `groupby` enumeration of
  pandas is modelled by `List.insertionSort` (a stable sort) over
  lexicographic keys.
-/

namespace Ruka

open List (Perm)

open scoped List

/-! ### Dates (pandas `datetime` as days since the epoch) -/

/-- pandas `.dt.weekday` with Monday = 0 for a day count `d` since
1970-01-01 (a Thursday). Source: `ruka_trends_mvp.py` line 93. -/
def weekday (d : ℤ) : ℤ := (d + 3) % 7

/-- `week_start` assignment: `date - to_timedelta(date.dt.weekday)`
(`ruka_trends_mvp.py` line 93). -/
def weekStart (d : ℤ) : ℤ := d - weekday d

/-! ### Data model -/

/-- One entry of the term catalog (`keywords_ruka.json`, loaded by
`load_terms`): market, language, intent, term. -/
structure TermRec where
  market : String
  language : String
  intent : String
  term : String
deriving DecidableEq, Repr

/-- One long-format fetched point after `melt` and the metadata merge
(`ruka_trends_mvp.py` lines 65–90): a dated interest value for one
(market, language, term). -/
structure TPoint where
  date : ℤ
  market : String
  language : String
  term : String
  value : ℚ
deriving DecidableEq, Repr

/-- A row of the intermediate table between the `week_start` assignment
(line 93) and the weekly aggregation (lines 95–100): the group key columns
plus `trend_index_0_100`. -/
structure TRow where
  week_start : ℤ
  market : String
  language : String
  term : String
  value : ℚ
deriving DecidableEq, Repr

/-- A row of the weekly trend table (`fetch_trends` output, lines 102–110):
key columns, provenance tag and the three planner metrics, which are all
`pd.NA` until a planner merge fills them. -/
structure WRow where
  week_start : ℤ
  market : String
  language : String
  term : String
  source : String
  value : ℚ
  avg_monthly_searches : Option ℚ
  cpc : Option ℚ
  competition_index : Option ℚ
deriving DecidableEq, Repr

/-! ### Sorting infrastructure

pandas `sort_values` on several columns and the sorted group enumeration of
`groupby` are stable sorts by a lexicographic key; we model them with
`List.insertionSort` (stable) over `keyLe f`, comparison of the images
under a key function `f` into a linear order built from `×ₗ` and `ᵒᵈ`. -/

/-- Comparison of two records by a key function into a linear order. -/
def keyLe {ρ κ : Type} [LinearOrder κ] (f : ρ → κ) (a b : ρ) : Prop :=
  f a ≤ f b

instance {ρ κ : Type} [LinearOrder κ] (f : ρ → κ) : DecidableRel (keyLe f) :=
  fun a b => inferInstanceAs (Decidable (f a ≤ f b))

instance {ρ κ : Type} [LinearOrder κ] (f : ρ → κ) : IsTrans ρ (keyLe f) :=
  ⟨fun _ _ _ hab hbc => le_trans hab hbc⟩

instance {ρ κ : Type} [LinearOrder κ] (f : ρ → κ) : IsTotal ρ (keyLe f) :=
  ⟨fun a b => le_total (f a) (f b)⟩

/-! ### Weekly aggregation (`fetch_trends`, lines 92–111) -/

/-- The full `groupby` key of the weekly aggregation, in pandas' group
enumeration order: `["week_start", "market", "language", "term"]`
(line 96). -/
abbrev GKey : Type := ℤ ×ₗ String ×ₗ String ×ₗ String

/-- Group key of a row for `groupby(["week_start","market","language","term"])`. -/
def gkey (r : TRow) : GKey :=
  toLex (r.week_start, toLex (r.market, toLex (r.language, r.term)))

/-- The `sort_values(["week_start","market","term"])` key of line 98
(note: `language` is not part of this sort key). -/
def wmtKey (r : TRow) : ℤ ×ₗ String ×ₗ String :=
  toLex (r.week_start, toLex (r.market, r.term))

/-- Mean of a list of rationals (`.agg(..., "mean")`). -/
def qmean (xs : List ℚ) : ℚ := xs.sum / xs.length

/-- The distinct group keys of a table, in pandas' sorted group-enumeration
order (`groupby` with default `sort=True`). -/
def sortedGKeys (rows : List TRow) : List GKey :=
  List.insertionSort (· ≤ ·) (rows.map gkey).dedup

/-- The aggregated row for group `k`: the key columns, and the mean of
`trend_index_0_100` over the rows of the group (line 97). -/
def aggRow (rows : List TRow) (k : GKey) : TRow :=
  { week_start := (ofLex k).1
    market := (ofLex (ofLex k).2).1
    language := (ofLex (ofLex (ofLex k).2).2).1
    term := (ofLex (ofLex (ofLex k).2).2).2
    value := qmean ((rows.filter fun r => decide (gkey r = k)).map (·.value)) }

/-- Lines 95–100: group by `(week_start, market, language, term)`, average
`trend_index_0_100` over each group, then stably re-sort the one-row-per-group
table by `(week_start, market, term)`. -/
def weeklyAgg (rows : List TRow) : List TRow :=
  List.insertionSort (keyLe wmtKey) ((sortedGKeys rows).map (aggRow rows))

/-- Line 93: assign `week_start` to a fetched point. -/
def toWeekRow (p : TPoint) : TRow :=
  { week_start := weekStart p.date, market := p.market, language := p.language
    term := p.term, value := p.value }

/-- Lines 102–110: attach the provenance tag and the all-`pd.NA` planner
metric columns, producing the final weekly schema. -/
def addConstCols (r : TRow) : WRow :=
  { week_start := r.week_start, market := r.market, language := r.language
    term := r.term, source := "GoogleTrends", value := r.value
    avg_monthly_searches := none, cpc := none, competition_index := none }

/-- The header of the weekly table, also used for the empty table returned
when no batch produced data (lines 76–82 and 107–110). -/
def fetchHeader : List String :=
  ["week_start", "market", "language", "term", "source",
   "trend_index_0_100", "avg_monthly_searches", "cpc_eur", "competition_index"]

/-- `fetch_trends` from the melted points onward: `week_start` assignment,
weekly aggregation, constant columns. An empty points list models the
`if not results` branch (lines 76–82), which returns an empty table with
the same header. -/
def fetchWeekly (points : List TPoint) : List WRow :=
  (weeklyAgg (points.map toWeekRow)).map addConstCols

/-! ### KPI calculator (`_calc_growth_feats`, lines 116–137)

`build_recommendations` (line 177) first left-merges the catalog's `intent`
column onto the weekly table on `(market, language, term)`; the merged rows
are `FRow`s. pandas left-merge repeats a left row once per matching right
row, and yields a `NaN` intent when there is no match. -/

/-- A weekly row joined with the catalog's `intent` column (line 177);
`none` models the `NaN` produced when the catalog has no matching entry. -/
structure FRow where
  week_start : ℤ
  market : String
  language : String
  term : String
  intent : Option String
  value : ℚ
deriving DecidableEq, Repr

/-- The left-merge of line 177: one output row per (weekly row, matching
catalog row) pair, and a single `none`-intent row when nothing matches. -/
def joinIntent (weekly : List WRow) (terms : List TermRec) : List FRow :=
  weekly.flatMap fun r =>
    match terms.filter (fun t =>
        t.market == r.market && t.language == r.language && t.term == r.term) with
    | [] => [{ week_start := r.week_start, market := r.market, language := r.language
               term := r.term, intent := none, value := r.value }]
    | ms => ms.map fun t =>
        { week_start := r.week_start, market := r.market, language := r.language
          term := r.term, intent := some t.intent, value := r.value }

/-- A KPI row (the output of `_calc_growth_feats`): group key, `intent`,
`latest`, the two window means (nullable, as the `how="left"` merges of
lines 131–132 leave them `NaN` when a window is empty), growth and score. -/
structure Feat where
  week_start : ℤ
  market : String
  language : String
  term : String
  intent : Option String
  latest : ℚ
  last4 : Option ℚ
  prev4 : Option ℚ
  growth : ℚ
  score : ℚ
deriving DecidableEq, Repr

/-- The `sort_values(["market","term","week_start"])` key of line 119. -/
def mtwKey (r : FRow) : String ×ₗ String ×ₗ ℤ :=
  toLex (r.market, toLex (r.term, r.week_start))

/-- Mean of `trend_index_0_100` over the rows of group `(m, l, t)` inside a
week window (used for the `last4` / `prev4` groupby-means of lines 124–129);
`none` when the group has no row in the window, matching the `NaN` a
`how="left"` merge leaves for an absent group. -/
def windowMean (df : List FRow) (p : ℤ → Bool) (m l t : String) : Option ℚ :=
  match df.filter (fun r =>
      p r.week_start && r.market == m && r.language == l && r.term == t) with
  | [] => none
  | g => some (qmean (g.map (·.value)))

/-- `growth_vs_prev4 = (last4 - prev4).fillna(0)` (line 133): the
subtraction is performed first, so a missing operand makes the whole
difference `NaN`, which `fillna` then replaces by `0`. -/
def growthOf (last4 prev4 : Option ℚ) : ℚ :=
  match last4, prev4 with
  | some a, some b => a - b
  | _, _ => 0

/-- The `last4` window mean for the group of `r` (lines 124, 126–127 and
the first merge of line 131): weeks with `week_start > latest_week - 28`. -/
def last4Of (df : List FRow) (lw : ℤ) (r : FRow) : Option ℚ :=
  windowMean df (fun w => decide (lw - 28 < w)) r.market r.language r.term

/-- The `prev4` window mean for the group of `r` (lines 125, 128–129 and
the second merge of line 132): weeks with
`latest_week - 56 < week_start ≤ latest_week - 28`. -/
def prev4Of (df : List FRow) (lw : ℤ) (r : FRow) : Option ℚ :=
  windowMean df (fun w => decide (w ≤ lw - 28) && decide (lw - 56 < w))
    r.market r.language r.term

/-- The KPI row built from one latest-week row `r` (lines 122 and 131–136):
`latest` is `r`'s trend value, the window means are merged in by group key,
growth and score follow lines 133 and 135, and `week_start` is reset to the
latest week (line 136). -/
def featOf (df : List FRow) (lw : ℤ) (r : FRow) : Feat :=
  let last4 := last4Of df lw r
  let prev4 := prev4Of df lw r
  let growth := growthOf last4 prev4
  { week_start := lw, market := r.market, language := r.language, term := r.term
    intent := r.intent, latest := r.value, last4 := last4, prev4 := prev4
    growth := growth, score := (7 / 10 : ℚ) * r.value + (3 / 10 : ℚ) * growth }

/-- `_calc_growth_feats` (lines 116–137): stable sort by
`(market, term, week_start)` (line 119), restrict to the rows of the single
most recent `week_start` (lines 121–122), and attach the window means,
growth and score. On an empty table the script would have no latest week
(`max` of nothing); at `main` level that case is absorbed by the
`try/except` around `build_recommendations` (lines 257–262), which leaves
the recommendations empty, so the embedding returns the empty list. -/
def calcGrowthFeats (df : List FRow) : List Feat :=
  match (df.map (·.week_start)).max? with
  | none => []
  | some lw =>
    (((List.insertionSort (keyLe mtwKey) df).filter
        fun r => decide (r.week_start = lw)).map (featOf df lw))

/-! ### Channel rules (`_channel_rules`, lines 140–173) -/

/-- Python `pat in s` on strings: substring containment. -/
def strContains (s pat : String) : Bool := decide (pat.toList <:+: s.toList)

/-- `list(dict.fromkeys(xs))` (line 171): de-duplicate keeping the first
occurrence of each element, preserving order. -/
def dedupFirst {α : Type} [DecidableEq α] : List α → List α
  | [] => []
  | x :: xs => x :: dedupFirst (xs.filter fun y => decide (y ≠ x))
termination_by l => l.length
decreasing_by
  exact Nat.lt_succ_of_le (List.length_filter_le _ _)

/-- The funnel/channels/audience/budget tuple computed by `_channel_rules`. -/
structure ChanRec where
  funnel : String
  channels : List String
  audience : String
  budget : String
deriving DecidableEq, Repr

/-- Rules 1–4 of `_channel_rules` (lines 145–167): the default tuple, then
the flight override, then the accommodation/brand override, then the
family/seasonal/activity override. `term` is the already-lowercased term
text (line 141); `intentS` is the intent with `NaN` read as `""`
(line 142). -/
def channelRules14 (term intentS : String) : ChanRec :=
  let c0 : ChanRec :=
    { funnel := "Mid → Lower"
      channels := ["Google Search (Exact/PH)", "Meta (Prospecting/RT)"]
      audience := "Travel intenders; site visitors; lookalikes"
      budget := "60% Search, 30% Meta, 10% Test" }
  let c1 :=
    if strContains term "flight" || strContains term "lento" ||
        strContains term "flüge" || strContains term "flyg" || intentS == "flights" then
      { funnel := "Lower (intent) + Mid (consideration)"
        channels := ["Google Search (Exact/BMM)", "Meta (Video/Traffic)",
                     "Performance Max (test)"]
        audience := "City O&D lookups (LON/STO/MUC), airline engagers, remarketing"
        budget := "70% Search, 20% Meta, 10% PMax" }
    else c0
  let c2 :=
    if intentS == "accommodation" || intentS == "brand" then
      { funnel := "Lower (brand/generic) + Mid"
        channels := ["Google Search (Brand/Generic)", "Meta (RT/Catalogue)",
                     "YouTube Shorts (test)"]
        audience := "Brand engagers; cart/room viewers; lookalikes"
        budget := "65% Search, 25% Meta, 10% YouTube" }
    else c1
  if intentS == "family" || intentS == "seasonal" || intentS == "activity" then
    { funnel := "Upper → Mid"
      channels := ["Meta (Reels/Stories)", "TikTok (Spark Ads)", "Google Discovery"]
      audience := "Families; winter sports; northern lights; interest stacks"
      budget := "20% Search, 60% Social, 20% Discovery" }
  else c2

/-- All of `_channel_rules` (lines 140–173): rules 1–4 and then, for the
GB/DE markets, the appended de-duplicated `"Pinterest (test)"` test channel
(lines 170–171). The joined-string form of the channel list (line 173) is
`chanString`. -/
def channelRules (term intentS market : String) : ChanRec :=
  let c := channelRules14 term intentS
  if market == "GB" || market == "DE" then
    { c with channels := dedupFirst (c.channels ++ ["Pinterest (test)"]) }
  else c

/-- `", ".join(channels)` (line 173). -/
def chanString (c : ChanRec) : String := String.intercalate ", " c.channels

/-! ### Recommendation engine (`build_recommendations`, lines 176–199) -/

/-- The `sort_values(["market","score"], ascending=[True,False])` key of
line 179: market ascending, then score descending. -/
def msKey (f : Feat) : String ×ₗ ℚᵒᵈ := toLex (f.market, OrderDual.toDual f.score)

/-- `groupby("market").head(n)` (lines 180–181): keep, in order, every row
whose rank inside its market (by position in the incoming frame) is below
`n`. -/
def topN (n : Nat) (l : List Feat) : List Feat :=
  (l.enum.filter fun ir =>
      decide (((l.take ir.1).countP fun s => s.market == ir.2.market) < n)).map Prod.snd

/-- The KPI rows selected by the recommendation engine: the KPI table,
stably re-sorted by (market asc, score desc), with the per-market top `n`
kept (lines 177–182). -/
def selectFeats (weekly : List WRow) (terms : List TermRec) (n : Nat) : List Feat :=
  topN n (List.insertionSort (keyLe msKey) (calcGrowthFeats (joinIntent weekly terms)))

/-- Python `round(x, 1)` on the exact value: round half to even at one
decimal (the script rounds floats; the embedding rounds the exact
rational). -/
def pyRound1 (x : ℚ) : ℚ :=
  (if Int.fract (x * 10) = 1 / 2 then 2 * round (x * 10 / 2) else round (x * 10)) / 10

/-- One recommendation row (lines 188–198). The `why_now` string embeds
the rounded latest/growth/score figures (line 187); they are carried here
as the rational fields `why_latest`, `why_growth`, `why_score`. -/
structure RecRow where
  market : String
  language : String
  term : String
  intent : Option String
  funnel : String
  suggested_channels : String
  audience_hint : String
  budget_split : String
  why_latest : ℚ
  why_growth : ℚ
  why_score : ℚ
deriving DecidableEq, Repr

/-- Build one recommendation row from a selected KPI row (lines 185–198). -/
def mkRecRow (f : Feat) : RecRow :=
  let c := channelRules f.term.toLower (f.intent.getD "") f.market
  { market := f.market, language := f.language, term := f.term, intent := f.intent
    funnel := c.funnel, suggested_channels := chanString c
    audience_hint := c.audience, budget_split := c.budget
    why_latest := pyRound1 f.latest, why_growth := pyRound1 f.growth
    why_score := pyRound1 f.score }

/-- `build_recommendations` (lines 176–199). -/
def buildRecommendations (weekly : List WRow) (terms : List TermRec) (n : Nat) :
    List RecRow :=
  (selectFeats weekly terms n).map mkRecRow

/-! ### One-pager (`build_one_pager`, lines 202–236, and the `main`
fallback of lines 264–271) -/

/-- A one-pager row: section label and free-text content. Numeric values
inside content strings are rendered with `toString` on the exact rational
where the script formats floats; no claim depends on the digit strings. -/
structure OPRow where
  section_label : String
  content : String
deriving DecidableEq, Repr

/-- The static creative hooks block (lines 215–221). -/
def hooksContent : String := String.intercalate "; "
  ["‘Direct to Kuusamo’ + exact O&D copy (STO/LON/MUC)",
   "Family angle: ‘Lapland with kids’ + sledging/reindeer/Northern Lights",
   "Short videos (10–15s): first 1s hook with snow + price/availability",
   "Meta Advantage+ RT: dynamic hotel/chalet creatives",
   "GB/DE test: Pinterest travel boards"]

/-- The static next-actions block (lines 222–228). -/
def actionsContent : String := String.intercalate "; "
  ["Activate brand & generic Search + exact ‘Kuusamo flights’ per market",
   "Prospecting reels for family/seasonal in GB/DE; retarget site visitors",
   "Set up UTM & sheet dashboard to monitor week-over-week",
   "Pilot Performance Max against ‘flights/accommodation’ clusters",
   "Add remarketing lists from site (GA4 audiences) to Search"]

/-- The `why_now` justification string of line 187, rebuilt from the carried
rounded figures. -/
def whyNow (r : RecRow) : String :=
  "Latest=" ++ toString r.why_latest ++ ", Δ4w=" ++ toString r.why_growth ++
    ", score=" ++ toString r.why_score

/-- Sort key for the top-opportunities selection (lines 205–207): the score
parsed back out of the `why_now` string — i.e. the rounded score —
descending. -/
def opKey (r : RecRow) : ℚᵒᵈ := OrderDual.toDual r.why_score

/-- The weekly table restricted to the distinct recommendation keys
(line 210's `how="right"` merge with the de-duplicated rec keys). A rec key
absent from the weekly table would contribute an all-`NaN` row in pandas;
such keys cannot occur because the recommendations are derived from the
weekly table, and the embedding keeps only the matching rows. -/
def weeklyForRecs (weekly : List WRow) (recs : List RecRow) : List FRow :=
  (dedupFirst (recs.map fun r => (r.market, r.language, r.term, r.intent))).flatMap
    fun k => (weekly.filter fun w =>
        w.market == k.1 && w.language == k.2.1 && w.term == k.2.2.1).map
      fun w => { week_start := w.week_start, market := w.market
                 language := w.language, term := w.term
                 intent := k.2.2.2, value := w.value }

/-- The watchout filter and sort of line 212: `latest < 15` or
`growth_vs_prev4 < -5`, sorted ascending by `latest`, first 5. -/
def watchRows (feats : List Feat) : List Feat :=
  ((List.insertionSort (keyLe (·.latest))
      (feats.filter fun f => decide (f.latest < 15) || decide (f.growth < -5))).take 5)

/-- `build_one_pager` (lines 202–236). `latestWeek` is `weekly["week_start"].max()`
(line 203); the script calls `.date()` on it, so the embedding requires the
weekly table to be nonempty exactly where the script would fail, which
`main` guards by only calling this when recommendations exist. -/
def buildOnePager (weekly : List WRow) (recs : List RecRow) : List OPRow :=
  let latestWeek := ((weekly.map (·.week_start)).max?).getD 0
  let topOps := (List.insertionSort (keyLe opKey) recs).take 5
  let feats := calcGrowthFeats (weeklyForRecs weekly recs)
  let watch := watchRows feats
  [ { section_label := "Top opportunities"
      content := String.intercalate "; " (topOps.map fun r =>
        r.market ++ " – " ++ r.term ++ " (" ++ whyNow r ++ ")") },
    { section_label := "Watchouts"
      content := String.intercalate "; " (watch.map fun f =>
        f.market ++ " – " ++ f.term ++ " (latest=" ++ toString (pyRound1 f.latest) ++
          ", Δ4w=" ++ toString (pyRound1 f.growth) ++ ")") },
    { section_label := "Creative hooks", content := hooksContent },
    { section_label := "Next actions", content := actionsContent },
    { section_label := "week", content := toString latestWeek } ]

/-- The fallback one-pager of `main` (lines 268–270), emitted when the
recommendation table is empty. -/
def fallbackOnePager : List OPRow :=
  [{ section_label := "Note", content := "No recommendations generated this run." }]

/-! ### Keyword-Planner merge

Modelled from the spec: the Keyword-Planner Merger of spec §4.2 is not
present in `src/` — `main` only declares the `--kp_csv` flag (line 243,
"Optional Google Ads Keyword Planner CSV to merge") and never reads it.
Following the spec's words: normalize the CSV to the canonical fields,
left-join the weekly table onto the CSV keyed by `term`, and where the CSV
supplies a non-null metric it overrides the weekly value, otherwise the
weekly table's prior value is kept. -/

/-- Modelled from the spec: one normalized planner-CSV row (spec §4.2/§6):
canonical fields `term`, `avg_monthly_searches`, `cpc`,
`competition_index`, with missing columns synthesized as all-null. -/
structure PRow where
  term : String
  avg_monthly_searches : Option ℚ
  cpc : Option ℚ
  competition_index : Option ℚ
deriving DecidableEq, Repr

/-- Modelled from the spec: merge the planner metrics of a matching CSV row
into one weekly row — each metric is overridden exactly when the CSV value
is non-null (spec §4.2). -/
def mergeMetrics (r : WRow) (c : PRow) : WRow :=
  { r with
    avg_monthly_searches := (c.avg_monthly_searches).orElse fun _ => r.avg_monthly_searches
    cpc := (c.cpc).orElse fun _ => r.cpc
    competition_index := (c.competition_index).orElse fun _ => r.competition_index }

/-- Modelled from the spec: the left join keyed by `term` of spec §4.2 — each
weekly row is kept, enriched from the CSV row matching its term when one
exists. -/
def mergePlanner (weekly : List WRow) (csv : List PRow) : List WRow :=
  weekly.map fun r =>
    match csv.find? (fun c => c.term == r.term) with
    | none => r
    | some c => mergeMetrics r c

/-! ### `main` (lines 239–274) -/

/-- One line of the output CSV for a weekly row (rendering of `to_csv`,
with the `pd.NA` metrics empty). -/
def csvLine (r : WRow) : String :=
  String.intercalate ","
    [toString r.week_start, r.market, r.language, r.term, r.source,
     toString r.value,
     (r.avg_monthly_searches.map toString).getD "",
     (r.cpc.map toString).getD "",
     (r.competition_index.map toString).getD ""]

/-- The output CSV (line 250): a header line, then one line per weekly
row. -/
def csvLines (weekly : List WRow) : List String :=
  String.intercalate "," fetchHeader :: weekly.map csvLine

/-- The one-pager `main` produces (lines 264–271): the full one-pager when
recommendations exist, else the single fallback note row. -/
def mainOnePager (weekly : List WRow) (recs : List RecRow) : List OPRow :=
  if recs.isEmpty then fallbackOnePager else buildOnePager weekly recs

/-- The three outputs of a run of `main` (lines 247–271) as a function of
the catalog, the fetched (melted) points and the planner-CSV flag. The
`kpCsv` argument models the `--kp_csv` flag (line 243): `main` parses it
but never uses it, so it does not occur in the body. -/
def mainOutputs (terms : List TermRec) (points : List TPoint)
    (kpCsv : Option (List PRow)) : List String × List RecRow × List OPRow :=
  let weekly := fetchWeekly points
  let recs := buildRecommendations weekly terms 5
  (csvLines weekly, recs, mainOnePager weekly recs)

/-! ### Specification predicates and orderings referenced by the claims -/

/-- The CSV row a weekly row is matched with in the by-`term` left join. -/
def csvFor (csv : List PRow) (r : WRow) : Option PRow :=
  csv.find? fun c => c.term == r.term

/-- Override discipline for one nullable metric (spec §4.2): a non-null CSV
value wins, a null CSV value keeps the pre-merge value. -/
def overrideOK (c pre post : Option ℚ) : Prop :=
  (∀ v, c = some v → post = some v) ∧ (c = none → post = pre)

/-- The per-row contract of the planner merge: key and trend columns are
untouched, and each metric follows `overrideOK` against the matched CSV
row (the whole row is untouched when no CSV row matches). -/
def mergeRowOK (csv : List PRow) (r out : WRow) : Prop :=
  out.week_start = r.week_start ∧ out.market = r.market ∧
  out.language = r.language ∧ out.term = r.term ∧
  out.source = r.source ∧ out.value = r.value ∧
  match csvFor csv r with
  | none => out = r
  | some c =>
    overrideOK c.avg_monthly_searches r.avg_monthly_searches out.avg_monthly_searches ∧
    overrideOK c.cpc r.cpc out.cpc ∧
    overrideOK c.competition_index r.competition_index out.competition_index

/-- The ordering claimed for the KPI output: market ascending, then score
descending. -/
def msOrd (a b : Feat) : Prop :=
  a.market < b.market ∨ (a.market = b.market ∧ b.score ≤ a.score)

instance (a b : Feat) : Decidable (msOrd a b) :=
  inferInstanceAs (Decidable (a.market < b.market ∨ (a.market = b.market ∧ b.score ≤ a.score)))

/-- The ordering the KPI output actually carries: market ascending, then
term ascending (from the `["market","term","week_start"]` sort of
line 119). -/
def mtKeyF (f : Feat) : String ×ₗ String := toLex (f.market, f.term)

/-- The full-resolution key of an aggregated weekly row: the `sort_values`
key (week_start, market, term) refined by `language`. The weekly
aggregation's output is strictly increasing in this key: the stable final
sort orders rows by (week_start, market, term) and inherits the `language`
tie-break from the sorted group enumeration. -/
def fkey (r : TRow) : ℤ ×ₗ String ×ₗ String ×ₗ String :=
  toLex (r.week_start, toLex (r.market, toLex (r.term, r.language)))

/-- Strict order on weekly rows by `fkey`. -/
def fLt (a b : TRow) : Prop := fkey a < fkey b

instance : IsAntisymm TRow fLt :=
  ⟨fun _ _ h1 h2 => absurd h2 (lt_asymm h1)⟩

/-- Strict order on weekly rows by group key. -/
def gLt (a b : TRow) : Prop := gkey a < gkey b

/-! ### Example data for the concrete claims -/

/-- The one-term catalog of the worked example: market FI, language fi,
intent flights, term "lento kuusamoon". -/
def exCatalog : List TermRec :=
  [{ market := "FI", language := "fi", intent := "flights", term := "lento kuusamoon" }]

/-- The worked example's fetch result: 12 weekly points (7 days apart), 40
except the last 4 weeks at 60. -/
def exPoints : List TPoint :=
  (List.range 12).map fun i =>
    { date := 7 * (i : ℤ), market := "FI", language := "fi", term := "lento kuusamoon"
      value := if i ≥ 8 then 60 else 40 }

/-! ## Supporting lemmas -/

theorem weekday_weekStart (d : ℤ) : weekday (weekStart d) = 0 := by
  simp only [weekday, weekStart]
  omega

theorem weekStart_le (d : ℤ) : weekStart d ≤ d := by
  unfold weekStart weekday
  omega

theorem sub_weekStart_lt (d : ℤ) : d - weekStart d < 7 := by
  unfold weekStart weekday
  omega

theorem mem_of_mem_dedupFirst {α : Type} [DecidableEq α] :
    ∀ (l : List α) (a : α), a ∈ dedupFirst l → a ∈ l
  | [], a, h => by simp [dedupFirst] at h
  | x :: xs, a, h => by
    rw [dedupFirst] at h
    rcases List.mem_cons.mp h with rfl | h'
    · exact List.mem_cons_self _ _
    · exact List.mem_cons_of_mem _
        (List.mem_of_mem_filter (mem_of_mem_dedupFirst _ a h'))
termination_by l => l.length
decreasing_by
  exact Nat.lt_succ_of_le (List.length_filter_le _ _)

theorem nodup_dedupFirst {α : Type} [DecidableEq α] :
    ∀ l : List α, (dedupFirst l).Nodup
  | [] => by simp [dedupFirst]
  | x :: xs => by
    rw [dedupFirst]
    refine List.nodup_cons.mpr ⟨fun hx => ?_, nodup_dedupFirst _⟩
    have hf := List.mem_filter.mp (mem_of_mem_dedupFirst _ _ hx)
    simp at hf
termination_by l => l.length
decreasing_by
  exact Nat.lt_succ_of_le (List.length_filter_le _ _)

/-! ## Claim C1 -/

/-- C1 (amended): in `_calc_growth_feats`, when `prev4` is undefined for a
KPI row the subtraction `last4 - prev4` is already null, so `fillna(0)`
makes `growth_vs_prev4` equal to `0` — not to `last4`; the computation is
total (never raises). -/
theorem growth_zero_of_prev4_none (df : List FRow) :
    ∀ f ∈ calcGrowthFeats df, f.prev4 = none → f.growth = 0 := by
  intro f hf hp
  unfold calcGrowthFeats at hf
  cases hmax : (df.map (·.week_start)).max? with
  | none => rw [hmax] at hf; simp at hf
  | some lw =>
    rw [hmax] at hf
    obtain ⟨r, -, rfl⟩ := List.mem_map.mp hf
    have hp' : prev4Of df lw r = none := hp
    show growthOf (last4Of df lw r) (prev4Of df lw r) = 0
    rw [hp']
    cases last4Of df lw r <;> rfl

/-- Witness for `growth_zero_of_prev4_none`: a one-row table whose only
group has latest-week data but nothing in the preceding 4-week window. -/
theorem growth_zero_of_prev4_none_witness :
    (⟨0, "FI", "fi", "x", none, 60, some 60, none, 0, 42⟩ : Feat) ∈
        calcGrowthFeats [⟨0, "FI", "fi", "x", none, 60⟩] ∧
      (⟨0, "FI", "fi", "x", none, 60, some 60, none, 0, 42⟩ : Feat).growth = 0 :=
  ⟨by decide!,
   growth_zero_of_prev4_none [⟨0, "FI", "fi", "x", none, 60⟩] _ (by decide!) (by decide!)⟩

/-- C1 as stated is false: for the one-row table with a lone latest-week
value 60, `last4 = 60` but the computed growth is `0`, not `last4`. -/
theorem growth_eq_last4_cex :
    ¬ (∀ df : List FRow, ∀ f ∈ calcGrowthFeats df,
        f.prev4 = none → f.last4 = some f.growth) := by
  intro h
  exact absurd
    (h [⟨0, "FI", "fi", "x", none, 60⟩] ⟨0, "FI", "fi", "x", none, 60, some 60, none, 0, 42⟩
      (by decide!) (by decide!))
    (by decide!)

/-! ## Claim C3 -/

/-- C3: on the catalog with the single term (FI, fi, flights,
"lento kuusamoon") and 12 weekly points equal to 40 except the last 4 weeks
equal to 60, the pipeline computes latest 60, last4 60, prev4 40, growth
20, score 48, and the recommendation row gets the flight-specific funnel
because the term contains "lento". -/
theorem flight_example_pipeline :
    (calcGrowthFeats (joinIntent (fetchWeekly exPoints) exCatalog)).map
        (fun f => (f.latest, f.last4, f.prev4, f.growth, f.score)) =
      [(60, some 60, some 40, 20, 48)] ∧
    (buildRecommendations (fetchWeekly exPoints) exCatalog 5).map (·.funnel) =
      ["Lower (intent) + Mid (consideration)"] :=
  ⟨by decide!, by decide!⟩

/-! ## Claim C10 -/

/-- C10: two runs of `main` on the same catalog and fetched data that
differ only in the planner-CSV flag produce identical weekly CSV,
recommendation and one-pager outputs — `main` parses `--kp_csv` but never
uses it. -/
theorem kp_csv_flag_no_influence (terms : List TermRec) (points : List TPoint)
    (a b : Option (List PRow)) :
    mainOutputs terms points a = mainOutputs terms points b := rfl

/-! ## Claim C8 -/

/-- C8 (amended): when the fetch result is empty for all markets, the
fetcher returns the empty table with the full expected header, the output
CSV is the header line and nothing else, no recommendation rows are
produced, and the one-pager is exactly the single fallback note row
(lines 268–270) — one row, not zero. -/
theorem empty_fetch_outputs (terms : List TermRec) :
    fetchHeader =
      ["week_start", "market", "language", "term", "source", "trend_index_0_100",
       "avg_monthly_searches", "cpc_eur", "competition_index"] ∧
    fetchWeekly [] = [] ∧
    csvLines (fetchWeekly []) = [String.intercalate "," fetchHeader] ∧
    buildRecommendations (fetchWeekly []) terms 5 = [] ∧
    mainOnePager (fetchWeekly []) (buildRecommendations (fetchWeekly []) terms 5) =
      fallbackOnePager :=
  ⟨rfl, rfl, rfl, rfl, rfl⟩

/-- Witness for `empty_fetch_outputs` at the example catalog. (The theorem
has no propositional hypothesis; this instantiates it concretely.) -/
theorem empty_fetch_outputs_witness :
    mainOnePager (fetchWeekly []) (buildRecommendations (fetchWeekly []) exCatalog 5) =
      fallbackOnePager :=
  (empty_fetch_outputs exCatalog).2.2.2.2

/-- C8 as stated is false on its one-pager half: an empty fetch still
produces one one-pager row (the fallback note), not zero rows. -/
theorem empty_fetch_one_pager_cex :
    (mainOutputs exCatalog [] none).2.2 ≠ [] := by
  decide!

/-! ## Claim C5 -/

/-- C5: a fetched point's `week_start` is its date minus the date's weekday
offset — the Monday on or before the date — and consequently every row of
the weekly table has a Monday `week_start`. -/
theorem week_start_is_monday :
    (∀ p : TPoint, (toWeekRow p).week_start = p.date - weekday p.date ∧
        weekStart p.date ≤ p.date ∧ p.date - weekStart p.date < 7 ∧
        weekday (weekStart p.date) = 0) ∧
    ∀ (points : List TPoint), ∀ r ∈ fetchWeekly points, weekday r.week_start = 0 := by
  constructor
  · intro p
    exact ⟨rfl, weekStart_le _, sub_weekStart_lt _, weekday_weekStart _⟩
  · intro points r hr
    unfold fetchWeekly at hr
    obtain ⟨r', hr', rfl⟩ := List.mem_map.mp hr
    unfold weeklyAgg at hr'
    rw [List.mem_insertionSort] at hr'
    obtain ⟨k, hk, rfl⟩ := List.mem_map.mp hr'
    unfold sortedGKeys at hk
    rw [List.mem_insertionSort, List.mem_dedup] at hk
    obtain ⟨r0, hr0, rfl⟩ := List.mem_map.mp hk
    obtain ⟨p, _, rfl⟩ := List.mem_map.mp hr0
    exact weekday_weekStart p.date

/-- Witness for `week_start_is_monday`: a point on day 6 (a Wednesday, as
day 0 is Thursday) lands in the weekly row of Monday, day 4. -/
theorem week_start_is_monday_witness :
    (⟨4, "FI", "fi", "x", "GoogleTrends", 40, none, none, none⟩ : WRow) ∈
        fetchWeekly [⟨6, "FI", "fi", "x", 40⟩] ∧
      weekday ((⟨4, "FI", "fi", "x", "GoogleTrends", 40, none, none, none⟩ : WRow)).week_start = 0 :=
  ⟨by decide!, week_start_is_monday.2 [⟨6, "FI", "fi", "x", 40⟩] _ (by decide!)⟩

/-! ## Claim C9 -/

/-- C9: the KPI output has a row for a (market, language, term) group iff
the group has a data point at the single most recent `week_start` of the
table (which every row's `week_start` is bounded by); groups with data only
in earlier weeks are dropped entirely. -/
theorem kpi_group_iff_latest_week (df : List FRow) (lw : ℤ)
    (h : (df.map (·.week_start)).max? = some lw) (m l t : String) :
    (∀ r ∈ df, r.week_start ≤ lw) ∧
    ((∃ f ∈ calcGrowthFeats df, f.market = m ∧ f.language = l ∧ f.term = t) ↔
      (∃ r ∈ df, r.market = m ∧ r.language = l ∧ r.term = t ∧ r.week_start = lw)) := by
  constructor
  · intro r hr
    exact (List.max?_le_iff (fun _ _ _ => max_le_iff) h).mp (le_refl lw) _
      (List.mem_map_of_mem _ hr)
  · unfold calcGrowthFeats
    rw [h]
    constructor
    · rintro ⟨f, hf, hm, hl, ht⟩
      obtain ⟨r, hr, rfl⟩ := List.mem_map.mp hf
      have hr' := List.mem_filter.mp hr
      exact ⟨r, (List.mem_insertionSort _).mp hr'.1, hm, hl, ht, of_decide_eq_true hr'.2⟩
    · rintro ⟨r, hr, hm, hl, ht, hw⟩
      exact ⟨featOf df lw r,
        List.mem_map.mpr ⟨r,
          List.mem_filter.mpr ⟨(List.mem_insertionSort _).mpr hr, decide_eq_true hw⟩, rfl⟩,
        hm, hl, ht⟩

/-- Witness for `kpi_group_iff_latest_week`: a two-group table where group
"a" has latest-week data and group "b" only has an older week; the iff
instantiated at group "b" (together with the max hypothesis) shows "b" is
dropped. -/
theorem kpi_group_iff_latest_week_witness :
    (([⟨7, "FI", "fi", "a", none, 50⟩, ⟨0, "FI", "fi", "b", none, 40⟩] :
        List FRow).map (·.week_start)).max? = some 7 ∧
    ((∃ f ∈ calcGrowthFeats
          [⟨7, "FI", "fi", "a", none, 50⟩, ⟨0, "FI", "fi", "b", none, 40⟩],
        f.market = "FI" ∧ f.language = "fi" ∧ f.term = "b") ↔
      (∃ r ∈ ([⟨7, "FI", "fi", "a", none, 50⟩, ⟨0, "FI", "fi", "b", none, 40⟩] :
          List FRow),
        r.market = "FI" ∧ r.language = "fi" ∧ r.term = "b" ∧ r.week_start = 7)) :=
  ⟨by decide!,
   (kpi_group_iff_latest_week
      [⟨7, "FI", "fi", "a", none, 50⟩, ⟨0, "FI", "fi", "b", none, 40⟩] 7
      (by decide!) "FI" "fi" "b").2⟩

/-! ## Claim C7 -/

/-- C7: the channel list produced by the rule cascade never contains
duplicates; and for a GB/DE market whose list after rules 1–4 is exactly
the default [search, social] pair, the final list is that pair with one
"Pinterest (test)" entry appended last. -/
theorem channels_nodup_and_pinterest_append (term intentS market : String) :
    ((channelRules term intentS market).channels).Nodup ∧
    ((market = "GB" ∨ market = "DE") →
      (channelRules14 term intentS).channels =
        ["Google Search (Exact/PH)", "Meta (Prospecting/RT)"] →
      (channelRules term intentS market).channels =
        ["Google Search (Exact/PH)", "Meta (Prospecting/RT)", "Pinterest (test)"]) := by
  constructor
  · simp only [channelRules]
    split
    · exact nodup_dedupFirst _
    · simp only [channelRules14]
      split <;> [decide;(split <;> [decide;(split <;> decide)])]
  · intro hm hc
    have hcond : (market == "GB" || market == "DE") = true := by
      rcases hm with rfl | rfl <;> decide
    simp only [channelRules, hcond, if_true]
    rw [hc]
    decide!

/-- Witness for `channels_nodup_and_pinterest_append`: the GB market with a
term/intent that triggers no override rule. -/
theorem channels_nodup_and_pinterest_append_witness :
    (("GB" = "GB" ∨ ("GB" : String) = "DE") ∧
      (channelRules14 "ruka ski" "").channels =
        ["Google Search (Exact/PH)", "Meta (Prospecting/RT)"]) ∧
    ((channelRules "ruka ski" "" "GB").channels).Nodup ∧
    (channelRules "ruka ski" "" "GB").channels =
      ["Google Search (Exact/PH)", "Meta (Prospecting/RT)", "Pinterest (test)"] :=
  ⟨⟨Or.inl rfl, by decide!⟩,
   (channels_nodup_and_pinterest_append "ruka ski" "" "GB").1,
   (channels_nodup_and_pinterest_append "ruka ski" "" "GB").2 (Or.inl rfl) (by decide!)⟩

/-! ## Claim C4 -/

theorem topN_sublist (n : Nat) (l : List Feat) : List.Sublist (topN n l) l := by
  unfold topN
  have h : List.Sublist
      ((l.enum.filter fun ir =>
        decide (((l.take ir.1).countP fun s => s.market == ir.2.market) < n)).map Prod.snd)
      (l.enum.map Prod.snd) :=
    (List.filter_sublist _).map _
  rwa [List.enum_map_snd] at h

theorem keyLe_mtw_imp_mt (df : List FRow) (lw : ℤ) :
    ∀ a b : FRow, keyLe mtwKey a b → keyLe mtKeyF (featOf df lw a) (featOf df lw b) := by
  intro a b h
  unfold keyLe mtwKey at h
  show (toLex (a.market, a.term) : String ×ₗ String) ≤ toLex (b.market, b.term)
  rw [Prod.Lex.le_iff] at h ⊢
  rcases h with h | ⟨h1, h2⟩
  · exact Or.inl h
  · rw [Prod.Lex.le_iff] at h2
    rcases h2 with h2 | ⟨h2, -⟩
    · exact Or.inr ⟨h1, le_of_lt h2⟩
    · exact Or.inr ⟨h1, le_of_eq h2⟩

theorem msOrd_of_keyLe_msKey {a b : Feat} (h : keyLe msKey a b) : msOrd a b := by
  unfold keyLe msKey at h
  rw [Prod.Lex.le_iff] at h
  rcases h with h | ⟨h1, h2⟩
  · exact Or.inl h
  · exact Or.inr ⟨h1, h2⟩

/-- C4 (amended): the KPI calculator's output is sorted by market
ascending and, within a market, by term ascending (the line 119 sort key,
not by score); the (market asc, score desc) ordering holds of the rows the
recommendation engine selects, because `build_recommendations` itself
stably re-sorts by that key before taking the per-market top N. -/
theorem kpi_order_and_selection_order :
    (∀ df : List FRow, (calcGrowthFeats df).Pairwise (keyLe mtKeyF)) ∧
    (∀ (weekly : List WRow) (terms : List TermRec) (n : Nat),
      (selectFeats weekly terms n).Pairwise msOrd) := by
  constructor
  · intro df
    unfold calcGrowthFeats
    cases (df.map (·.week_start)).max? with
    | none => exact List.Pairwise.nil
    | some lw =>
      exact ((List.sorted_insertionSort (keyLe mtwKey) df).filter _).map _
        (keyLe_mtw_imp_mt df lw)
  · intro weekly terms n
    unfold selectFeats
    exact (((List.sorted_insertionSort (keyLe msKey) _).sublist
      (topN_sublist n _)).imp fun h => msOrd_of_keyLe_msKey h)

/-- C4 as stated is false: the KPI output of a two-term table is ordered by
term, with scores ascending (7 then 35), so it is not sorted score-descending
within the market. -/
theorem kpi_not_score_sorted_cex :
    ¬ (∀ df : List FRow, (calcGrowthFeats df).Pairwise msOrd) :=
  fun h =>
    absurd (h [⟨0, "FI", "fi", "a", none, 10⟩, ⟨0, "FI", "fi", "b", none, 50⟩])
      (by decide!)

/-! ## Claim C2 (spec-modelled planner merge) -/

theorem overrideOK_orElse (c pre : Option ℚ) :
    overrideOK c pre (c.orElse fun _ => pre) := by
  constructor
  · intro v hv; rw [hv]; rfl
  · intro hv; rw [hv]; rfl

/-- C2: the planner merge is a left join keyed by `term` in which, row by
row, each metric equals the CSV value whenever the CSV provides a non-null
value and keeps the pre-merge weekly value whenever the CSV value is null
(whole row untouched when no CSV row matches). -/
theorem planner_merge_override (weekly : List WRow) (csv : List PRow) :
    List.Forall₂ (mergeRowOK csv) weekly (mergePlanner weekly csv) := by
  unfold mergePlanner
  rw [List.forall₂_map_right_iff]
  rw [List.forall₂_same]
  intro r _
  simp only [mergeRowOK, csvFor]
  cases hc : csv.find? (fun c => c.term == r.term) with
  | none => exact ⟨rfl, rfl, rfl, rfl, rfl, rfl, rfl⟩
  | some c =>
    exact ⟨rfl, rfl, rfl, rfl, rfl, rfl,
      overrideOK_orElse _ _, overrideOK_orElse _ _, overrideOK_orElse _ _⟩

/-! ## Claim C6

The weekly aggregation enumerates groups in sorted `(week_start, market,
language, term)` order and then stably re-sorts by `(week_start, market,
term)`; its output is therefore strictly increasing in the refined key
`fkey` (sort key plus `language` tie-break). Idempotence follows: on a
one-row-per-key table every group is a singleton, singleton means are the
identity, and both sides are `fkey`-strictly-sorted permutations of each
other. -/

theorem gkey_aggRow (rows : List TRow) (k : GKey) : gkey (aggRow rows k) = k := rfl

theorem qmean_singleton (v : ℚ) : qmean [v] = v := by
  simp [qmean]

theorem gkey_eq_iff {a b : TRow} :
    gkey a = gkey b ↔
      a.week_start = b.week_start ∧ a.market = b.market ∧
      a.language = b.language ∧ a.term = b.term := by
  unfold gkey
  simp only [toLex_inj, Prod.mk.injEq]

theorem fkey_eq_iff {a b : TRow} :
    fkey a = fkey b ↔
      a.week_start = b.week_start ∧ a.market = b.market ∧
      a.term = b.term ∧ a.language = b.language := by
  unfold fkey
  simp only [toLex_inj, Prod.mk.injEq]

theorem wmtKey_eq_iff {a b : TRow} :
    wmtKey a = wmtKey b ↔
      a.week_start = b.week_start ∧ a.market = b.market ∧ a.term = b.term := by
  unfold wmtKey
  simp only [toLex_inj, Prod.mk.injEq]

theorem fkey_ne_of_gkey_ne {a b : TRow} (h : gkey a ≠ gkey b) : fkey a ≠ fkey b := by
  intro he
  apply h
  rw [fkey_eq_iff] at he
  rw [gkey_eq_iff]
  exact ⟨he.1, he.2.1, he.2.2.2, he.2.2.1⟩

theorem wmtKey_le_of_fkey_lt {a b : TRow} (h : fkey a < fkey b) : wmtKey a ≤ wmtKey b := by
  unfold fkey at h
  unfold wmtKey
  rw [Prod.Lex.lt_iff] at h
  rw [Prod.Lex.le_iff]
  rcases h with h | ⟨h1, h2⟩
  · exact Or.inl h
  · refine Or.inr ⟨h1, ?_⟩
    rw [Prod.Lex.lt_iff] at h2
    rw [Prod.Lex.le_iff]
    rcases h2 with h2 | ⟨h2a, h2b⟩
    · exact Or.inl h2
    · refine Or.inr ⟨h2a, ?_⟩
      rw [Prod.Lex.lt_iff] at h2b
      rcases h2b with h2b | ⟨h2c, -⟩
      · exact le_of_lt h2b
      · exact le_of_eq h2c

theorem gkey_lt_of_fkey_lt_of_wmtKey_eq {a b : TRow} (hw : wmtKey a = wmtKey b)
    (h : fkey a < fkey b) : gkey a < gkey b := by
  rw [wmtKey_eq_iff] at hw
  obtain ⟨hw1, hw2, hw3⟩ := hw
  unfold fkey at h
  rw [Prod.Lex.lt_iff] at h
  rcases h with h | ⟨-, h2⟩
  · exact absurd h (by rw [hw1]; exact lt_irrefl _)
  · rw [Prod.Lex.lt_iff] at h2
    rcases h2 with h2 | ⟨-, h2b⟩
    · exact absurd h2 (by rw [hw2]; exact lt_irrefl _)
    · rw [Prod.Lex.lt_iff] at h2b
      rcases h2b with h2b | ⟨-, hl⟩
      · exact absurd h2b (by rw [hw3]; exact lt_irrefl _)
      · unfold gkey
        rw [Prod.Lex.lt_iff]
        refine Or.inr ⟨hw1, ?_⟩
        rw [Prod.Lex.lt_iff]
        refine Or.inr ⟨hw2, ?_⟩
        rw [Prod.Lex.lt_iff]
        exact Or.inl hl

theorem rel_pair_sublist {α : Type} {r : α → α → Prop}
    (hasymm : ∀ x y, r x y → ¬ r y x) :
    ∀ {l : List α}, l.Pairwise r → ∀ {x y}, x ∈ l → y ∈ l → r x y →
      List.Sublist [x, y] l
  | [], _, x, _, hx, _, _ => absurd hx (List.not_mem_nil x)
  | z :: tl, h, x, y, hx, hy, hxy => by
    obtain ⟨hz, htl⟩ := List.pairwise_cons.mp h
    rcases List.mem_cons.mp hx with rfl | hxtl
    · rcases List.mem_cons.mp hy with rfl | hytl
      · exact absurd hxy (hasymm _ _ hxy)
      · exact List.Sublist.cons₂ x (List.singleton_sublist.mpr hytl)
    · rcases List.mem_cons.mp hy with rfl | hytl
      · exact absurd (hz x hxtl) (hasymm x y hxy)
      · exact List.Sublist.cons z (rel_pair_sublist hasymm htl hxtl hytl hxy)

theorem pair_sublist_antisymm {α : Type} :
    ∀ {l : List α}, l.Nodup → ∀ {a b : α},
      List.Sublist [a, b] l → List.Sublist [b, a] l → a = b
  | [], _, _, _, hab, _ => by simp at hab
  | z :: tl, hnd, a, b, hab, hba => by
    obtain ⟨hz, htl⟩ := List.nodup_cons.mp hnd
    cases hab with
    | cons _ hab2 =>
      cases hba with
      | cons _ hba2 => exact pair_sublist_antisymm htl hab2 hba2
      | cons₂ _ hba2 =>
        exact absurd (hab2.subset (by simp)) hz
    | cons₂ _ hab2 =>
      cases hba with
      | cons _ hba2 =>
        exact absurd (hba2.subset (by simp)) hz
      | cons₂ _ hba2 => rfl

theorem gLt_ne {a b : TRow} (h : gLt a b) : a ≠ b := by
  intro he
  subst he
  exact lt_irrefl _ h

theorem map_gkey_nodup_of_pairwise {c : List TRow} (hc : c.Pairwise gLt) :
    (c.map gkey).Nodup := by
  show (c.map gkey).Pairwise (· ≠ ·)
  rw [List.pairwise_map]
  exact hc.imp ne_of_lt

/-- Stability core: sorting a strictly group-key-sorted table by the
coarser `(week_start, market, term)` key yields a table strictly sorted by
the refined key `fkey`. -/
theorem pairwise_fLt_sort_wmt {c : List TRow} (hc : c.Pairwise gLt) :
    (List.insertionSort (keyLe wmtKey) c).Pairwise fLt := by
  have hperm : List.insertionSort (keyLe wmtKey) c ~ c := List.perm_insertionSort _ _
  have hcnd : c.Nodup := hc.imp gLt_ne
  have hLnd : (List.insertionSort (keyLe wmtKey) c).Nodup := hperm.nodup_iff.mpr hcnd
  have hmapnd : (c.map gkey).Nodup := map_gkey_nodup_of_pairwise hc
  have hsorted := List.sorted_insertionSort (keyLe wmtKey) c
  rw [List.pairwise_iff_forall_sublist]
  intro a b hsub
  have ha : a ∈ c := hperm.subset (hsub.subset (by simp))
  have hb : b ∈ c := hperm.subset (hsub.subset (by simp))
  have hne : a ≠ b := by
    have hnd2 := hLnd.sublist hsub
    simpa using hnd2
  have hgne : gkey a ≠ gkey b := fun he => hne (List.inj_on_of_nodup_map hmapnd ha hb he)
  have hle : keyLe wmtKey a b := List.pairwise_iff_forall_sublist.mp hsorted hsub
  rcases lt_or_gt_of_ne (fkey_ne_of_gkey_ne hgne) with hlt | hgt
  · exact hlt
  · exfalso
    have hwle : wmtKey b ≤ wmtKey a := wmtKey_le_of_fkey_lt hgt
    have hweq : wmtKey b = wmtKey a := le_antisymm hwle hle
    have hglt : gkey b < gkey a := gkey_lt_of_fkey_lt_of_wmtKey_eq hweq hgt
    have hbac : List.Sublist [b, a] c :=
      rel_pair_sublist (fun _ _ h1 h2 => lt_asymm h1 h2) hc hb ha hglt
    have hbaL : List.Sublist [b, a] (List.insertionSort (keyLe wmtKey) c) :=
      List.pair_sublist_insertionSort hwle hbac
    exact hne (pair_sublist_antisymm hLnd hsub hbaL)

theorem sortedGKeys_pairwise_lt (rows : List TRow) :
    (sortedGKeys rows).Pairwise (· < ·) := by
  have hs : (sortedGKeys rows).Pairwise (· ≤ ·) := List.sorted_insertionSort _ _
  have hnd : (sortedGKeys rows).Nodup :=
    (List.perm_insertionSort _ _).nodup_iff.mpr (List.nodup_dedup _)
  exact (hs.and hnd).imp fun h => lt_of_le_of_ne h.1 h.2

theorem krows_pairwise (rows : List TRow) :
    ((sortedGKeys rows).map (aggRow rows)).Pairwise gLt := by
  refine List.Pairwise.map _ ?_ (sortedGKeys_pairwise_lt rows)
  intro k k' h
  show gkey (aggRow rows k) < gkey (aggRow rows k')
  rw [gkey_aggRow, gkey_aggRow]
  exact h

theorem weeklyAgg_pairwise_fLt (rows : List TRow) : (weeklyAgg rows).Pairwise fLt :=
  pairwise_fLt_sort_wmt (krows_pairwise rows)

theorem map_gkey_weeklyAgg (rows : List TRow) :
    (weeklyAgg rows).map gkey ~ sortedGKeys rows := by
  have h1 : (weeklyAgg rows).map gkey ~ ((sortedGKeys rows).map (aggRow rows)).map gkey :=
    (List.perm_insertionSort _ _).map gkey
  have h2 : ((sortedGKeys rows).map (aggRow rows)).map gkey = sortedGKeys rows := by
    rw [List.map_map]
    exact (List.map_congr_left fun k _ => gkey_aggRow rows k).trans (List.map_id _)
  rw [h2] at h1
  exact h1

theorem filter_gkey_eq_singleton :
    ∀ {l : List TRow}, (l.map gkey).Nodup → ∀ {x}, x ∈ l →
      l.filter (fun r => decide (gkey r = gkey x)) = [x]
  | [], _, x, hx => absurd hx (List.not_mem_nil x)
  | z :: tl, hnd, x, hx => by
    rw [List.map_cons, List.nodup_cons] at hnd
    obtain ⟨hz, htl⟩ := hnd
    rcases List.mem_cons.mp hx with rfl | hxtl
    · have hnil : (tl.filter fun r => decide (gkey r = gkey x)) = [] := by
        rw [List.filter_eq_nil_iff]
        intro r hr hd
        exact hz (by rw [← of_decide_eq_true hd]; exact List.mem_map_of_mem gkey hr)
      rw [List.filter_cons_of_pos]
      · rw [hnil]
      · simp
    · have hne : (decide (gkey z = gkey x)) = false := by
        rw [decide_eq_false_iff_not]
        intro hd
        exact hz (by rw [hd]; exact List.mem_map_of_mem gkey hxtl)
      rw [List.filter_cons_of_neg]
      · exact filter_gkey_eq_singleton htl hxtl
      · rw [hne]
        exact Bool.false_ne_true

theorem aggRow_gkey_self {l : List TRow} (hnd : (l.map gkey).Nodup) {x : TRow}
    (hx : x ∈ l) : aggRow l (gkey x) = x := by
  show (⟨x.week_start, x.market, x.language, x.term,
      qmean ((l.filter fun r => decide (gkey r = gkey x)).map (·.value))⟩ : TRow) = x
  rw [filter_gkey_eq_singleton hnd hx]
  rw [List.map_cons, List.map_nil, qmean_singleton]

/-- C6: the weekly groupby-and-mean aggregation is idempotent —
re-aggregating an already-aggregated table by the same
(week_start, market, language, term) key yields the same table. -/
theorem weeklyAgg_idempotent (rows : List TRow) :
    weeklyAgg (weeklyAgg rows) = weeklyAgg rows := by
  have htP : (weeklyAgg rows).Pairwise fLt := weeklyAgg_pairwise_fLt rows
  have hkeysperm : (weeklyAgg rows).map gkey ~ sortedGKeys rows := map_gkey_weeklyAgg rows
  have hknd : ((weeklyAgg rows).map gkey).Nodup :=
    hkeysperm.nodup_iff.mpr
      ((List.perm_insertionSort _ _).nodup_iff.mpr (List.nodup_dedup _))
  have hdedup : ((weeklyAgg rows).map gkey).dedup = (weeklyAgg rows).map gkey :=
    List.dedup_eq_self.mpr hknd
  have hsgperm : sortedGKeys (weeklyAgg rows) ~ (weeklyAgg rows).map gkey := by
    unfold sortedGKeys
    rw [hdedup]
    exact List.perm_insertionSort _ _
  have hmapself :
      ((weeklyAgg rows).map gkey).map (aggRow (weeklyAgg rows)) = weeklyAgg rows := by
    rw [List.map_map]
    refine (List.map_congr_left ?_).trans (List.map_id _)
    intro x hxmem
    exact aggRow_gkey_self hknd hxmem
  have hckperm :
      (sortedGKeys (weeklyAgg rows)).map (aggRow (weeklyAgg rows)) ~ weeklyAgg rows := by
    calc (sortedGKeys (weeklyAgg rows)).map (aggRow (weeklyAgg rows))
        ~ ((weeklyAgg rows).map gkey).map (aggRow (weeklyAgg rows)) := hsgperm.map _
      _ = weeklyAgg rows := hmapself
  have hLP : (weeklyAgg (weeklyAgg rows)).Pairwise fLt :=
    pairwise_fLt_sort_wmt (krows_pairwise (weeklyAgg rows))
  have hLperm : weeklyAgg (weeklyAgg rows) ~ weeklyAgg rows := by
    calc weeklyAgg (weeklyAgg rows)
        ~ (sortedGKeys (weeklyAgg rows)).map (aggRow (weeklyAgg rows)) :=
          List.perm_insertionSort _ _
      _ ~ weeklyAgg rows := hckperm
  exact List.eq_of_perm_of_sorted hLperm hLP htP

end Ruka
